import Mathlib

/-!
Verification of the comprakt MiniJava compiler core against its
natural-language specification.  Rust source functions are shallowly
embedded as executable Lean definitions; panics are modelled as
`Except.error`, fallible lookups as `Option`.
-/

set_option maxRecDepth 4000

namespace Comprakt

/-! ## Source-view position iterator (asciifile/src/iter.rs)

A file is a list of characters; a `Position` is an index `i` with
`i < chars.length`.  The iterator state `position_to_emit` is
`Option Nat`: `some i` when the next position to emit is `i`, `none`
at end of input.  `Position::next` moves to `i + 1` when that is still
in range.  A `Span` is the pair of its start and end indices
(inclusive on both sides, as in the Rust `Span`). -/

/-- The list of indices emitted by a `PositionIterator` over a file of
length `len` starting in state `st` (`Iterator::next` repeatedly). -/
def iterPositions (len : Nat) (st : Option Nat) : List Nat :=
  match st with
  | none => []
  | some i => List.range' i (len - i)

/-- `PositionIterator::peek_at_most` from `asciifile/src/iter.rs`:
on state `none` returns `Ok none`; otherwise takes the first `n`
emitted positions and calls `.last().unwrap()` on them, so `n = 0`
panics (`Except.error ()`), and otherwise the span runs from the
current position to the last taken position. -/
def peek_at_most (len : Nat) (st : Option Nat) (n : Nat) :
    Except Unit (Option (Nat × Nat)) :=
  match st with
  | none => Except.ok none
  | some span_start =>
    match ((iterPositions len (some span_start)).take n).getLast? with
    | none => Except.error ()
    | some span_end => Except.ok (some (span_start, span_end))

/-- Length of a span `(s, e)` (inclusive of one character at `e`),
as computed by `Span::as_str().len()`. -/
def spanLen (sp : Nat × Nat) : Nat := sp.2 + 1 - sp.1

/-- The characters covered by a span `(s, e)` of `chars`
(`Span::as_str`). -/
def spanStr (chars : List Char) (sp : Nat × Nat) : List Char :=
  (chars.drop sp.1).take (spanLen sp)

/-- `PositionIterator::peek_exactly` from `asciifile/src/iter.rs`:
delegates to `peek_at_most` and turns a too-short span into `none`. -/
def peek_exactly (len : Nat) (st : Option Nat) (n : Nat) :
    Except Unit (Option (Nat × Nat)) :=
  match peek_at_most len st n with
  | Except.error e => Except.error e
  | Except.ok none => Except.ok none
  | Except.ok (some sp) =>
    if spanLen sp < n then Except.ok none else Except.ok (some sp)

/-- `PositionIterator::matches` from `asciifile/src/iter.rs`:
peeks exactly `|wanted|` characters; on `None` the result is
`wanted == ""`, otherwise the peeked span is compared with `wanted`. -/
def matchesIter (chars : List Char) (st : Option Nat) (wanted : List Char) :
    Except Unit Bool :=
  match peek_exactly chars.length st wanted.length with
  | Except.error e => Except.error e
  | Except.ok none => Except.ok (wanted == [])
  | Except.ok (some sp) => Except.ok (spanStr chars sp == wanted)

end Comprakt

namespace Comprakt

/-- helper: `take` of `range'` truncates the length. -/
theorem range'_take (m : Nat) :
    ∀ (i n : Nat), (List.range' i m).take n = List.range' i (min n m) := by
  induction m with
  | zero => intro i n; simp
  | succ k ih =>
    intro i n
    rw [List.range'_succ]
    cases n with
    | zero => simp
    | succ n =>
      rw [List.take_cons (Nat.succ_pos n), Nat.succ_sub_one, ih (i + 1) n,
        Nat.succ_min_succ, List.range'_succ]

/-- helper: the `take n` of the emitted positions has an explicit last
element when `n ≥ 1` and the iterator is not finished. -/
theorem iterPositions_take_getLast (len i n : Nat) (hn : 1 ≤ n)
    (hi : i < len) :
    ((iterPositions len (some i)).take n).getLast? =
      some (i + (min n (len - i)) - 1) := by
  unfold iterPositions
  have hlen : 0 < len - i := Nat.sub_pos_of_lt hi
  rw [range'_take, List.getLast?_range']
  have hmin : 0 < min n (len - i) := lt_min hn hlen
  rw [if_neg (Nat.pos_iff_ne_zero.mp hmin)]

/-- C10: for every `n ≥ 1`, `peek_at_most(n)` returns `None` exactly when
the iterator has reached end of input; otherwise it returns a span of
length `min(n, remaining)` starting at the current position, never a
zero-length span (and it never panics). -/
theorem peek_at_most_spec (len : Nat) (st : Option Nat) (n : Nat)
    (hn : 1 ≤ n) (hst : ∀ i, st = some i → i < len) :
    (peek_at_most len st n = Except.ok none ↔ st = none) ∧
    (∀ i, st = some i →
      peek_at_most len st n =
        Except.ok (some (i, i + min n (len - i) - 1)) ∧
      spanLen (i, i + min n (len - i) - 1) = min n (len - i) ∧
      1 ≤ spanLen (i, i + min n (len - i) - 1)) := by
  cases st with
  | none => exact ⟨by simp [peek_at_most], by intro i h; cases h⟩
  | some i =>
    have hi : i < len := hst i rfl
    have hmin : 0 < min n (len - i) := lt_min hn (Nat.sub_pos_of_lt hi)
    have hlen : spanLen (i, i + min n (len - i) - 1) = min n (len - i) := by
      unfold spanLen
      omega
    have heval : peek_at_most len (some i) n =
        Except.ok (some (i, i + min n (len - i) - 1)) := by
      simp only [peek_at_most]
      rw [iterPositions_take_getLast len i n hn hi]
    constructor
    · constructor
      · intro h
        rw [heval] at h
        cases h
      · intro h; cases h
    · intro j hj
      cases hj
      exact ⟨heval, hlen, by rw [hlen]; exact hmin⟩

/-- C10 witness: concrete evaluation of `peek_at_most_spec` on a
3-character file at position 1 with `n = 5`. -/
theorem peek_at_most_spec_witness :
    peek_at_most 3 (some 1) 5 = Except.ok (some (1, 1 + min 5 (3 - 1) - 1)) ∧
    spanLen (1, 1 + min 5 (3 - 1) - 1) = min 5 (3 - 1) ∧
    1 ≤ spanLen (1, 1 + min 5 (3 - 1) - 1) :=
  (peek_at_most_spec 3 (some 1) 5 (by decide)
    (by intro i h; injection h with h; omega)).2 1 rfl

/-- C1: contrary to the claim, `matches("")` does not return true at
every position: at a non-end-of-input position, `peek_at_most(0)`
evaluates `take(0).last().unwrap()`, which panics.  The empty string
matches only at end of input; nonempty strings behave as claimed. -/
theorem matches_empty_string_panics :
    matchesIter ['a'] (some 0) [] = Except.error () ∧
    matchesIter ['a'] none [] = Except.ok true ∧
    matchesIter ['a'] (some 0) ['a'] = Except.ok true ∧
    matchesIter ['a'] (some 0) ['b'] = Except.ok false := by
  exact ⟨rfl, rfl, rfl, rfl⟩

/-! ## AsciiFile construction (src/src/asciifile.rs)

The memory-mapped input is a list of byte values.  `AsciiFile::new`
scans for the first non-ASCII byte (value `> 127`) and fails with
`NotAscii { position, prev }`. -/

def ENCODING_ERROR_MAX_CONTEXT_LEN : Nat := 180

/-- `AsciiFile::get_line_start_idx` from src/src/asciifile.rs:
`region_start = byte_offset.checked_sub(180).unwrap_or(0)`,
`region = mapping[region_start..byte_offset]`, then
`region.iter().position(|&chr| chr == b'\n').map(|pos| pos + 1)
 .unwrap_or(region_start)`. -/
def get_line_start_idx (mapping : List Nat) (byte_offset : Nat) : Nat :=
  let region_start := byte_offset - ENCODING_ERROR_MAX_CONTEXT_LEN
  let region := (mapping.take byte_offset).drop region_start
  match region.findIdx? (fun chr => chr == 10) with
  | some pos => pos + 1
  | none => region_start

/-- `AsciiFile::new` from src/src/asciifile.rs: succeeds iff every byte
is 7-bit ASCII; otherwise fails with the offset of the first non-ASCII
byte and `prev = mapping[get_line_start_idx(..)..position]`. -/
def asciiFileNew (mapping : List Nat) : Except (Nat × List Nat) Unit :=
  match mapping.findIdx? (fun c => !(c ≤ 127)) with
  | some position =>
    let start_idx := get_line_start_idx mapping position
    Except.error (position, (mapping.take position).drop start_idx)
  | none => Except.ok ()

/-- The `prev` field as the claim describes it: the characters from the
start of the line containing `position` up to `position`, truncated to
the last 180 characters of context. -/
def claimedLinePrev (mapping : List Nat) (position : Nat) : List Nat :=
  let before := mapping.take position
  let lineTail :=
    match before.reverse.findIdx? (fun chr => chr == 10) with
    | some k => before.drop (before.length - k)
    | none => before
  lineTail.drop (lineTail.length - ENCODING_ERROR_MAX_CONTEXT_LEN)

/-- C3: `get_line_start_idx` searches the context window for the FIRST
newline (`position` instead of `rposition`), so on an input whose
non-ASCII byte is preceded by two newlines the reported `prev` is not
the prefix of the offending byte's line: for bytes `"a\nb\nc" ++ [255]`
the code reports `prev = "b\nc"` while the line prefix is `"c"`.
The success case (all-ASCII input) and the `position` field do behave
as claimed. -/
theorem asciiFileNew_prev_field_bug :
    asciiFileNew [97, 10, 98, 10, 99, 255] =
      Except.error (5, [98, 10, 99]) ∧
    claimedLinePrev [97, 10, 98, 10, 99, 255] 5 = [99] ∧
    ([98, 10, 99] : List Nat) ≠ [99] ∧
    asciiFileNew [97, 10, 98, 10, 99] = Except.ok () := by
  refine ⟨?_, ?_, by decide, ?_⟩ <;> rfl

/-! ## Optimization runner (compiler-lib/src/optimization/mod.rs)

`run_all` reads the environment variable
`COMPRAKT_OPTIMIZATION_NO_FIXPOINT` (modelled as an `Option String`:
`none` is `Err(_)` from `std::env::var`).  When the variable is unset
it delegates to the fixpoint driver and returns; otherwise it runs the
given optimizations once each, in order, via
`for (i, optimization) in optimizations.iter().enumerate()`.
The observable behaviour is modelled as the trace of optimization
executions. -/

inductive OptimizationKind where
  | AlgebraicSimplification
  | ConstantFolding
  | UnreachableCodeElimination
  deriving DecidableEq, Repr

inductive GlobalOptimizationFlag where
  | DumpYcomp
  deriving DecidableEq, Repr

structure Optimization where
  kind : OptimizationKind
  flags : List GlobalOptimizationFlag

/-- One entry in the execution trace of `run_all`: either the fixpoint
driver was entered with the whole list, or optimization number `idx`
was run once. -/
inductive OptEvent where
  | ranFixpoint (opts : List Optimization)
  | ran (idx : Nat) (kind : OptimizationKind)

/-- The enumerated `for` loop in `run_all`. -/
def run_all_loop (i : Nat) : List Optimization → List OptEvent
  | [] => []
  | o :: rest => OptEvent.ran i o.kind :: run_all_loop (i + 1) rest

/-- `run_all` from compiler-lib/src/optimization/mod.rs, at trace
level. -/
def run_all (noFixpointVar : Option String) (opts : List Optimization) :
    List OptEvent :=
  match noFixpointVar with
  | none => [OptEvent.ranFixpoint opts]
  | some _ => run_all_loop 0 opts

theorem run_all_loop_closed (opts : List Optimization) :
    ∀ i, run_all_loop i opts =
      (opts.enumFrom i).map (fun p => OptEvent.ran p.1 p.2.kind) := by
  induction opts with
  | nil => intro i; rfl
  | cons o rest ih =>
    intro i
    simp only [run_all_loop, List.enumFrom, List.map, ih (i + 1)]

/-- C4: with `COMPRAKT_OPTIMIZATION_NO_FIXPOINT` set to `"1"`,
`run_all` never enters the fixpoint driver and runs each optimization
of the list exactly once, in declared order. -/
theorem run_all_no_fixpoint_runs_once (opts : List Optimization) :
    (∀ os, OptEvent.ranFixpoint os ∉ run_all (some "1") opts) ∧
    run_all (some "1") opts =
      opts.enum.map (fun p => OptEvent.ran p.1 p.2.kind) := by
  have hclosed : run_all (some "1") opts =
      opts.enum.map (fun p => OptEvent.ran p.1 p.2.kind) :=
    run_all_loop_closed opts 0
  refine ⟨?_, hclosed⟩
  intro os hmem
  rw [hclosed] at hmem
  rcases List.mem_map.mp hmem with ⟨p, _, hp⟩
  cases hp

/-! ## Method body type checking
(compiler-lib/src/method_body_typechecker.rs)

The checker's `type_system.rs` is not part of the sources, so the
resolved type and its assignability relation are modelled from the
specification; the statement checker itself is translated from the
source. -/

/-- Modelled from the spec: `CheckedType`, the resolved form
`Int | Boolean | Void | TypeRef(class-handle) | Array(CheckedType) |
Null` (the class handle is a symbol, modelled as `Nat`). -/
inductive CheckedType where
  | Int
  | Boolean
  | Void
  | TypeRef (name : Nat)
  | Array (elem : CheckedType)
  | Null
  deriving DecidableEq, Repr

/-- Modelled from the spec: `is_assignable_from` of `type_system.rs`
(not under src/).  Assignability: `Null ≤ TypeRef(_)`,
`Null ≤ Array(_)`; otherwise structural equality (in particular Void is
assignable from Void only). -/
def is_assignable_from : CheckedType → CheckedType → Bool
  | CheckedType.TypeRef _, CheckedType.Null => true
  | CheckedType.Array _, CheckedType.Null => true
  | a, b => a == b

/-- The semantic error kinds relevant here, from `SemanticError`. -/
inductive SemanticError where
  | ConditionMustBeBoolean
  | MethodMustReturnSomething
  | VoidMethodCannotReturnValue
  | InvalidReturnType
  | CannotAccessNonStaticFieldInStaticMethod
  | InvalidReferenceToClass
  | CannotLookupVarOrField
  deriving DecidableEq, Repr

/-- The `Return(expr_opt)` arm of `check_type_stmt`
(method_body_typechecker.rs lines 102-143): the list of errors the
checker reports for one return statement.  `expr_opt` is `none` for
`return;` and `some r` for `return e;`, where `r` is the outcome of
`get_type_expr(e)` (`Except.error ()` when no type could be
computed). -/
def checkReturnStmt (return_ty : CheckedType)
    (expr_opt : Option (Except Unit CheckedType)) : List SemanticError :=
  match expr_opt with
  | none =>
    match return_ty with
    | CheckedType.Void => []
    | _ => [SemanticError.MethodMustReturnSomething]
  | some expr_ty =>
    match return_ty with
    | CheckedType.Void => [SemanticError.VoidMethodCannotReturnValue]
    | _ =>
      match expr_ty with
      | Except.ok t =>
        if !(is_assignable_from return_ty t) then
          [SemanticError.InvalidReturnType]
        else []
      | Except.error _ => []

/-- C5: in a Void method `return;` is error-free and `return e;`
reports `VoidMethodCannotReturnValue`; in a non-Void method `return;`
reports `MethodMustReturnSomething` and `return e;` reports
`InvalidReturnType` exactly when the computed type of `e` is not
assignable to the declared return type. -/
theorem check_return_stmt_spec (rt t : CheckedType)
    (r : Except Unit CheckedType) (hrt : rt ≠ CheckedType.Void) :
    checkReturnStmt CheckedType.Void none = [] ∧
    checkReturnStmt CheckedType.Void (some r) =
      [SemanticError.VoidMethodCannotReturnValue] ∧
    checkReturnStmt rt none = [SemanticError.MethodMustReturnSomething] ∧
    (SemanticError.InvalidReturnType ∈ checkReturnStmt rt (some (Except.ok t))
      ↔ is_assignable_from rt t = false) := by
  refine ⟨rfl, rfl, ?_, ?_⟩
  · cases rt <;> first | rfl | exact absurd rfl hrt
  · cases rt with
    | Void => exact absurd rfl hrt
    | _ =>
      simp only [checkReturnStmt]
      cases h : is_assignable_from _ t <;> simp

/-- C5 witness: concrete instance with a Boolean-typed expression
returned from an Int method. -/
theorem check_return_stmt_spec_witness :
    checkReturnStmt CheckedType.Void none = [] ∧
    checkReturnStmt CheckedType.Void (some (Except.ok CheckedType.Int)) =
      [SemanticError.VoidMethodCannotReturnValue] ∧
    checkReturnStmt CheckedType.Int none =
      [SemanticError.MethodMustReturnSomething] ∧
    (SemanticError.InvalidReturnType ∈
        checkReturnStmt CheckedType.Int (some (Except.ok CheckedType.Boolean))
      ↔ is_assignable_from CheckedType.Int CheckedType.Boolean = false) :=
  check_return_stmt_spec CheckedType.Int CheckedType.Boolean
    (Except.ok CheckedType.Int) (by decide)

/-- The inputs `lookup_var` (method_body_typechecker.rs lines 292-343)
consults, in the order the `or_else` chain consults them: the scoped
local/param lookup, the current class's field lookup, whether the
current method is static, and whether the name resolves to a class. -/
structure LookupEnv where
  scopeTy : Option CheckedType
  fieldTy : Option CheckedType
  isStatic : Bool
  classExists : Bool

/-- `lookup_var` from method_body_typechecker.rs: the `or_else` chain
over local/param scope, this-field, class name, (unimplemented System
stage) and the final `CannotLookupVarOrField` report.  Returns the
reported errors in emission order plus the `Result`. -/
def lookup_var (env : LookupEnv) :
    List SemanticError × Except Unit CheckedType :=
  match env.scopeTy with
  | some ty => ([], Except.ok ty)
  | none =>
    match env.fieldTy with
    | some ty =>
      ((if env.isStatic then
          [SemanticError.CannotAccessNonStaticFieldInStaticMethod]
        else []), Except.ok ty)
    | none =>
      let classErrs :=
        if env.classExists then [SemanticError.InvalidReferenceToClass]
        else []
      (classErrs ++ [SemanticError.CannotLookupVarOrField], Except.error ())

/-- C6 counterexample: for an identifier that is a class name (no local,
param or field in scope), the code emits `CannotLookupVarOrField` in
addition to `InvalidReferenceToClass`, because the class stage returns
`Err` and the `or_else` chain falls through to the final report; the
claim predicts only `InvalidReferenceToClass` in this case. -/
theorem lookup_var_class_also_unresolved :
    lookup_var ⟨none, none, false, true⟩ =
      ([SemanticError.InvalidReferenceToClass,
        SemanticError.CannotLookupVarOrField], Except.error ()) ∧
    lookup_var ⟨none, none, false, true⟩ ≠
      ([SemanticError.InvalidReferenceToClass], Except.error ()) := by
  refine ⟨rfl, ?_⟩
  intro h
  have hfst := congrArg Prod.fst h
  exact absurd hfst (by decide)

/-- C6 amended: the stages are consulted in the claimed order, the
first successful stage's recorded type is the result, and a class name
emits `InvalidReferenceToClass` and yields no type — but the final
`CannotLookupVarOrField` report is emitted in every failing case,
including the class-name case, not only when the name is not a class. -/
theorem lookup_var_stage_order (ty fty : CheckedType) (st cls : Bool)
    (f : Option CheckedType) :
    lookup_var ⟨some ty, f, st, cls⟩ = ([], Except.ok ty) ∧
    lookup_var ⟨none, some fty, false, cls⟩ = ([], Except.ok fty) ∧
    lookup_var ⟨none, some fty, true, cls⟩ =
      ([SemanticError.CannotAccessNonStaticFieldInStaticMethod],
        Except.ok fty) ∧
    lookup_var ⟨none, none, st, true⟩ =
      ([SemanticError.InvalidReferenceToClass,
        SemanticError.CannotLookupVarOrField], Except.error ()) ∧
    lookup_var ⟨none, none, st, false⟩ =
      ([SemanticError.CannotLookupVarOrField], Except.error ()) := by
  exact ⟨rfl, rfl, rfl, rfl, rfl⟩

/-! ## amd64 function lowering
(compiler-lib/src/lowering/amd64/function.rs) -/

inductive Amd64Reg where
  | Rax | Rbx | Rcx | Rdx | Rdi | Rsi | Rsp | Rbp
  | R8 | R9 | R10 | R11 | R12 | R13 | R14 | R15
  deriving DecidableEq, Repr

/-- `lir::Operand`, with value slots identified by their number. -/
inductive LirOperand where
  | Slot (num : Nat)
  | Imm (v : Int)
  | Addr (base : Nat) (offset : Int)
  | Param (idx : Nat)
  deriving DecidableEq, Repr

/-- `amd64::Operand` as used by `FnInstruction`. -/
inductive FnOperand where
  | Reg (r : Amd64Reg)
  | Lir (op : LirOperand)
  deriving DecidableEq, Repr

/-- `FnInstruction` from amd64/function.rs. -/
inductive FnInstr where
  | Movq (src dst : FnOperand)
  | Pushq (src : FnOperand)
  | Popq (dst : FnOperand)
  | Addq (src : Int) (dst : FnOperand)
  deriving DecidableEq, Repr

/-- Modelled from the spec: `Amd64Reg::arg` (register.rs is not under
src/) — the first six integer argument registers, in order
Rdi, Rsi, Rdx, Rcx, R8, R9. -/
def argRegSeq : List Amd64Reg :=
  [Amd64Reg.Rdi, Amd64Reg.Rsi, Amd64Reg.Rdx,
   Amd64Reg.Rcx, Amd64Reg.R8, Amd64Reg.R9]

/-- Modelled from the spec: `Amd64Reg::arg(i)` for `i < 6` (never
called with larger indices by `setup_x86_64_cconv`). -/
def amd64RegArg (i : Nat) : Amd64Reg := argRegSeq.getD i Amd64Reg.Rax

/-- The caller-save register list of the `save_regs!` invocation in
`setup_x86_64_cconv`. -/
def callerSaveSeq : List Amd64Reg :=
  [Amd64Reg.Rdi, Amd64Reg.Rsi, Amd64Reg.Rdx, Amd64Reg.Rcx,
   Amd64Reg.R8, Amd64Reg.R9, Amd64Reg.R10, Amd64Reg.R11, Amd64Reg.Rax]

/-- The relevant fields of `FunctionCall` after `setup_x86_64_cconv`. -/
structure FunctionCallSetup where
  arg_save : List FnInstr
  setup : List FnInstr
  move_res : Option FnInstr
  recover : Option FnInstr
  arg_recover : List FnInstr
  deriving Repr

/-- The enumerated argument loop of `setup_x86_64_cconv`: argument `i`
with `i < 6` appends a move into `Amd64Reg::arg(i)` to `setup`, later
arguments append a push to `push_setup`. -/
def cconvLoop (i : Nat) : List LirOperand → List FnInstr × List FnInstr
  | [] => ([], [])
  | a :: rest =>
    let r := cconvLoop (i + 1) rest
    if i < 6 then
      (FnInstr.Movq (FnOperand.Lir a) (FnOperand.Reg (amd64RegArg i)) :: r.1,
        r.2)
    else
      (r.1, FnInstr.Pushq (FnOperand.Lir a) :: r.2)

/-- `FunctionCall::setup_x86_64_cconv` from amd64/function.rs (for a
`Call { func, args, dst }` instruction; the label is omitted). -/
def setup_x86_64_cconv (args : List LirOperand) (dst : Option Nat) :
    FunctionCallSetup :=
  let loopRes := cconvLoop 0 args
  let push_setup := loopRes.2
  let recover :=
    if push_setup.isEmpty then none
    else some (FnInstr.Addq (8 * (push_setup.length : Int))
      (FnOperand.Reg Amd64Reg.Rsp))
  let setup :=
    if push_setup.isEmpty then loopRes.1
    else loopRes.1 ++ push_setup.reverse
  { arg_save := callerSaveSeq.map (fun r => FnInstr.Pushq (FnOperand.Reg r))
    setup := setup
    move_res := dst.map (fun d =>
      FnInstr.Movq (FnOperand.Reg Amd64Reg.Rax)
        (FnOperand.Lir (LirOperand.Slot d)))
    recover := recover
    arg_recover :=
      callerSaveSeq.map (fun r => FnInstr.Popq (FnOperand.Reg r)) }

theorem cconvLoop_ge6 (args : List LirOperand) :
    ∀ i, 6 ≤ i → cconvLoop i args =
      ([], args.map (fun a => FnInstr.Pushq (FnOperand.Lir a))) := by
  induction args with
  | nil => intro i _; rfl
  | cons a rest ih =>
    intro i hi
    have hlt : ¬ i < 6 := by omega
    simp only [cconvLoop, ih (i + 1) (by omega), if_neg hlt, List.map]

theorem cconvLoop_lt6 (args : List LirOperand) :
    ∀ i, i < 6 → cconvLoop i args =
      (List.zipWith
        (fun a r => FnInstr.Movq (FnOperand.Lir a) (FnOperand.Reg r))
        (args.take (6 - i)) (argRegSeq.drop i),
       (args.drop (6 - i)).map (fun a => FnInstr.Pushq (FnOperand.Lir a))) := by
  induction args with
  | nil => intro i _; simp [cconvLoop]
  | cons a rest ih =>
    intro i hi
    have hdrop : argRegSeq.drop i = amd64RegArg i :: argRegSeq.drop (i + 1) := by
      interval_cases i <;> rfl
    have htake : (a :: rest).take (6 - i) = a :: rest.take (6 - (i + 1)) := by
      have h1 : 6 - i = (6 - (i + 1)) + 1 := by omega
      rw [h1, List.take_succ_cons]
    have hdrop2 : (a :: rest).drop (6 - i) = rest.drop (6 - (i + 1)) := by
      have h1 : 6 - i = (6 - (i + 1)) + 1 := by omega
      rw [h1, List.drop_succ_cons]
    simp only [cconvLoop, if_pos hi]
    by_cases h6 : i + 1 < 6
    · rw [ih (i + 1) h6, hdrop, htake, hdrop2, List.zipWith_cons_cons]
    · have hi5 : i = 5 := by omega
      subst hi5
      rw [cconvLoop_ge6 rest 6 (by omega)]
      simp [List.zipWith, argRegSeq, amd64RegArg]

/-- C9: under the x86-64 calling convention, arguments 0..5 are moved
into Rdi, Rsi, Rdx, Rcx, R8, R9 in that order, the remaining arguments
are pushed right-to-left (reversed), a recover instruction adds
`8·(n-6)` to Rsp exactly when `n > 6`, and a produced result is moved
from Rax into the destination slot. -/
theorem setup_x86_64_cconv_spec (args : List LirOperand) (dst : Option Nat) :
    (setup_x86_64_cconv args dst).setup =
      List.zipWith
        (fun a r => FnInstr.Movq (FnOperand.Lir a) (FnOperand.Reg r))
        (args.take 6) argRegSeq ++
      ((args.drop 6).map
        (fun a => FnInstr.Pushq (FnOperand.Lir a))).reverse ∧
    (setup_x86_64_cconv args dst).recover =
      (if 6 < args.length then
        some (FnInstr.Addq (8 * ((args.length - 6 : Nat) : Int))
          (FnOperand.Reg Amd64Reg.Rsp))
      else none) ∧
    (setup_x86_64_cconv args dst).move_res =
      dst.map (fun d =>
        FnInstr.Movq (FnOperand.Reg Amd64Reg.Rax)
          (FnOperand.Lir (LirOperand.Slot d))) := by
  have hloop : cconvLoop 0 args =
      (List.zipWith
        (fun a r => FnInstr.Movq (FnOperand.Lir a) (FnOperand.Reg r))
        (args.take 6) argRegSeq,
       (args.drop 6).map (fun a => FnInstr.Pushq (FnOperand.Lir a))) := by
    simpa using cconvLoop_lt6 args 0 (by omega)
  have h1 : (cconvLoop 0 args).1 =
      List.zipWith
        (fun a r => FnInstr.Movq (FnOperand.Lir a) (FnOperand.Reg r))
        (args.take 6) argRegSeq := by rw [hloop]
  have h2 : (cconvLoop 0 args).2 =
      (args.drop 6).map (fun a => FnInstr.Pushq (FnOperand.Lir a)) := by
    rw [hloop]
  have hempty : (cconvLoop 0 args).2.isEmpty = true ↔ args.length ≤ 6 := by
    rw [h2]
    simp only [List.isEmpty_iff, List.map_eq_nil_iff, List.drop_eq_nil_iff]
  have hlen : (cconvLoop 0 args).2.length = args.length - 6 := by
    rw [h2]; simp
  refine ⟨?_, ?_, rfl⟩
  · show (if (cconvLoop 0 args).2.isEmpty then (cconvLoop 0 args).1
      else (cconvLoop 0 args).1 ++ (cconvLoop 0 args).2.reverse) = _
    by_cases h : (cconvLoop 0 args).2.isEmpty
    · rw [if_pos h, h1]
      rw [List.isEmpty_iff] at h
      rw [h2] at h
      rw [h]
      simp
    · rw [if_neg h, h1, h2]
  · show (if (cconvLoop 0 args).2.isEmpty then none
      else some (FnInstr.Addq (8 * ((cconvLoop 0 args).2.length : Int))
        (FnOperand.Reg Amd64Reg.Rsp))) = _
    by_cases h : args.length ≤ 6
    · rw [if_pos (hempty.mpr h), if_neg (by omega)]
    · have hne : ¬ (cconvLoop 0 args).2.isEmpty = true := by
        intro hc; exact h (hempty.mp hc)
      rw [if_neg hne, if_pos (by omega), hlen]

/-! ### Callee-save register saving -/

/-- Push/pop instructions over registers, as produced by the
`save_regs!` macro into `Function::save_regs` / `restore_regs`. -/
inductive RegInstr where
  | Pushq (src : Amd64Reg)
  | Popq (dst : Amd64Reg)
  deriving DecidableEq, Repr

/-- The `save_regs!` macro of amd64/function.rs: for each register, in
the given order, append a push to the save list and a pop to the
restore list (both lists are filled in the same order). -/
def saveRegsLists (regs : List Amd64Reg) : List RegInstr × List RegInstr :=
  (regs.map RegInstr.Pushq, regs.map RegInstr.Popq)

/-- The callee-save registers in the order used by
`save_callee_save_regs`. -/
def calleeSaveSeq : List Amd64Reg :=
  [Amd64Reg.Rbx, Amd64Reg.R12, Amd64Reg.R13, Amd64Reg.R14, Amd64Reg.R15]

/-- `Function::save_callee_save_regs` from amd64/function.rs:
`num_regs_required < 10` saves nothing; 10..14 save Rbx, R12.. as
needed; more panics via `unreachable!`. -/
def save_callee_save_regs (num_regs_required : Nat) :
    Except String (List RegInstr × List RegInstr) :=
  if num_regs_required < 10 then Except.ok ([], [])
  else if num_regs_required = 10 then
    Except.ok (saveRegsLists [Amd64Reg.Rbx])
  else if num_regs_required = 11 then
    Except.ok (saveRegsLists [Amd64Reg.Rbx, Amd64Reg.R12])
  else if num_regs_required = 12 then
    Except.ok (saveRegsLists [Amd64Reg.Rbx, Amd64Reg.R12, Amd64Reg.R13])
  else if num_regs_required = 13 then
    Except.ok (saveRegsLists
      [Amd64Reg.Rbx, Amd64Reg.R12, Amd64Reg.R13, Amd64Reg.R14])
  else if num_regs_required = 14 then
    Except.ok (saveRegsLists calleeSaveSeq)
  else Except.error "unreachable: More registers required than available"

/-- C8 counterexample: at `k = 11` the recorded restore sequence is
`[pop Rbx, pop R12]`, the same order as the pushes — not the reverse
order the claim states. -/
theorem save_callee_save_regs_pop_order :
    save_callee_save_regs 11 =
      Except.ok ([RegInstr.Pushq Amd64Reg.Rbx, RegInstr.Pushq Amd64Reg.R12],
        [RegInstr.Popq Amd64Reg.Rbx, RegInstr.Popq Amd64Reg.R12]) ∧
    [RegInstr.Popq Amd64Reg.Rbx, RegInstr.Popq Amd64Reg.R12] ≠
      ((calleeSaveSeq.take (11 - 9)).map RegInstr.Popq).reverse := by
  exact ⟨rfl, by decide⟩

/-- C8 amended: `save_callee_save_regs(k)` emits nothing for `k ≤ 9`,
for `10 ≤ k ≤ 14` it pushes the first `k - 9` registers of
Rbx, R12, R13, R14, R15 in that order and records the matching pops in
the SAME order (not reversed), and for `k > 14` it panics. -/
theorem save_callee_save_regs_spec (k : Nat) :
    save_callee_save_regs k =
      (if k < 10 then Except.ok ([], [])
       else if k ≤ 14 then
        Except.ok ((calleeSaveSeq.take (k - 9)).map RegInstr.Pushq,
          (calleeSaveSeq.take (k - 9)).map RegInstr.Popq)
       else
        Except.error "unreachable: More registers required than available")
    := by
  by_cases h9 : k < 10
  · rw [if_pos h9]
    unfold save_callee_save_regs
    rw [if_pos h9]
  · rw [if_neg h9]
    by_cases h14 : k ≤ 14
    · rw [if_pos h14]
      interval_cases k <;> rfl
    · rw [if_neg h14]
      unfold save_callee_save_regs
      rw [if_neg h9, if_neg (by omega), if_neg (by omega), if_neg (by omega),
        if_neg (by omega), if_neg (by omega)]

/-! ## LIR value slots and the MultiSlotBuilder
(compiler-lib/src/lowering/lir.rs lines 152-185 and 907-999)

Firm nodes and phis are identified by integer ids; a block's `regs`
list is the list of its multislots. -/

/-- `ValueSlot` (the fields the numbering invariant concerns). -/
structure ValueSlotM where
  num : Nat
  firm : Nat
  deriving DecidableEq, Repr

/-- `MultiSlot`: `Single(ValueSlot)` or `Multi { phi, slots }`. -/
inductive MultiSlotM where
  | Single (slot : ValueSlotM)
  | Multi (phi : Nat) (slots : List ValueSlotM)
  deriving DecidableEq, Repr

/-- All `ValueSlot`s contained in a multislot. -/
def MultiSlotM.slotList : MultiSlotM → List ValueSlotM
  | MultiSlotM.Single s => [s]
  | MultiSlotM.Multi _ slots => slots

/-- `MultiSlot::num`: `Single(slot) => slot.num`,
`Multi { slots, .. } => slots[0].num`; indexing an empty `slots` list
panics, modelled as `none`. -/
def MultiSlotM.numOpt : MultiSlotM → Option Nat
  | MultiSlotM.Single s => some s.num
  | MultiSlotM.Multi _ slots => slots.head?.map ValueSlotM.num

/-- `MultiSlotBuilder` (lir.rs line 907): `num` is fixed at creation to
`allocated_in.regs.len()`. -/
structure MultiSlotBuilderM where
  num : Nat
  slots : List ValueSlotM
  phi : Option Nat
  deriving DecidableEq, Repr

/-- `MultiSlotBuilder::new`: `num = allocated_in.regs.len()`, no slots
yet. -/
def newMultiSlotBuilder (regs : List MultiSlotM) (phi : Option Nat) :
    MultiSlotBuilderM :=
  { num := regs.length, slots := [], phi := phi }

/-- The multislot `MultiSlotBuilder::commit` builds from the collected
slots: `Multi { phi, slots }` when a phi is present, otherwise
`Single` of the one collected slot (`assert_eq!(self.slots.len(), 1)`,
panic modelled as `Except.error`). -/
def msbBuild (b : MultiSlotBuilderM) : Except String MultiSlotM :=
  match b.phi with
  | some phi => Except.ok (MultiSlotM.Multi phi b.slots)
  | none =>
    match b.slots with
    | [s] => Except.ok (MultiSlotM.Single s)
    | _ => Except.error "assertion failed: slots.len() == 1"

/-- The tail of `MultiSlotBuilder::commit`: append the built slot at
index `num` (when `regs.len() == num`) or replace the entry at index
`num` (when `regs.len() == num + 1`); anything else is
`unreachable!()`. -/
def msbPlace (regs : List MultiSlotM) (num : Nat) (slot : MultiSlotM) :
    Except String (List MultiSlotM) :=
  if regs.length = num then Except.ok (regs ++ [slot])
  else if regs.length = num + 1 then Except.ok (regs.set num slot)
  else Except.error "unreachable"

/-- `MultiSlotBuilder::commit` from lir.rs lines 978-998. -/
def msbCommit (regs : List MultiSlotM) (b : MultiSlotBuilderM) :
    Except String (List MultiSlotM) :=
  match msbBuild b with
  | Except.error e => Except.error e
  | Except.ok slot => msbPlace regs b.num slot

/-- `MultiSlotBuilder::add_possible_value`: assert
`num ≤ regs.len() ≤ num + 1` and that `value` is not already among the
collected slots, construct `ValueSlot { num, firm: value, .. }`, push
it and commit.  Returns the updated regs, builder and the new slot. -/
def msbAddPossibleValue (regs : List MultiSlotM) (b : MultiSlotBuilderM)
    (value : Nat) :
    Except String (List MultiSlotM × MultiSlotBuilderM × ValueSlotM) :=
  if ¬ (b.num ≤ regs.length) then
    Except.error "assertion failed: regs.len() >= num"
  else if ¬ (regs.length ≤ b.num + 1) then
    Except.error "assertion failed: regs.len() <= num + 1"
  else if b.slots.any (fun s => s.firm == value) then
    Except.error "assertion failed: !is_duplicate"
  else
    match msbCommit regs
        { b with slots := b.slots ++ [⟨b.num, value⟩] } with
    | Except.error e => Except.error e
    | Except.ok regs2 =>
      Except.ok (regs2, { b with slots := b.slots ++ [⟨b.num, value⟩] },
        ⟨b.num, value⟩)

/-- The per-block dense-numbering invariant: the multislot stored at
index `i` of `regs` holds only value slots numbered `i` (hence
`MultiSlot::num` returns `i` whenever it is defined). -/
def regsDense (regs : List MultiSlotM) : Prop :=
  ∀ i, ∀ h : i < regs.length,
    ∀ s ∈ (regs.get ⟨i, h⟩).slotList, s.num = i

/-- A builder is coherent when all its collected slots carry its
number. -/
def builderOk (b : MultiSlotBuilderM) : Prop :=
  ∀ s ∈ b.slots, s.num = b.num

theorem regsDense_numOpt (regs : List MultiSlotM) (hd : regsDense regs) :
    ∀ i, ∀ h : i < regs.length,
      ∀ n, (regs.get ⟨i, h⟩).numOpt = some n → n = i := by
  intro i h n hn
  cases hms : regs.get ⟨i, h⟩ with
  | Single s =>
    rw [hms] at hn
    simp only [MultiSlotM.numOpt, Option.some.injEq] at hn
    have hsm := hd i h s (by
      rw [hms]
      exact List.mem_singleton_self s)
    rw [← hn, hsm]
  | Multi phi slots =>
    rw [hms] at hn
    simp only [MultiSlotM.numOpt] at hn
    cases hsl : slots.head? with
    | none =>
      rw [hsl] at hn
      cases hn
    | some s0 =>
      rw [hsl] at hn
      have hn2 : s0.num = n := by simpa using hn
      have hmem : s0 ∈ slots := List.mem_of_mem_head? hsl
      have hsm := hd i h s0 (by rw [hms]; exact hmem)
      rw [← hn2, hsm]

theorem msbCommit_preserves_dense (regs : List MultiSlotM)
    (b : MultiSlotBuilderM) (regs2 : List MultiSlotM)
    (hd : regsDense regs) (hb : builderOk b)
    (hc : msbCommit regs b = Except.ok regs2) :
    regsDense regs2 ∧
    ∃ ms, (∀ s ∈ ms.slotList, s.num = b.num) ∧
      ((regs.length = b.num ∧ regs2 = regs ++ [ms]) ∨
       (regs.length = b.num + 1 ∧ regs2 = regs.set b.num ms)) := by
  have hms : ∃ ms, msbBuild b = Except.ok ms ∧
      ∀ s ∈ ms.slotList, s.num = b.num := by
    cases hphi : b.phi with
    | some phi =>
      refine ⟨MultiSlotM.Multi phi b.slots, ?_, fun s hs => hb s hs⟩
      unfold msbBuild
      rw [hphi]
    | none =>
      cases hsl : b.slots with
      | nil =>
        exfalso
        unfold msbCommit msbBuild at hc
        rw [hphi, hsl] at hc
        cases hc
      | cons s0 rest =>
        cases hrest : rest with
        | nil =>
          refine ⟨MultiSlotM.Single s0, ?_, ?_⟩
          · unfold msbBuild
            rw [hphi, hsl, hrest]
          · intro s hs
            rw [MultiSlotM.slotList, List.mem_singleton] at hs
            subst hs
            exact hb s (by rw [hsl, hrest]; exact List.mem_singleton_self s)
        | cons s1 rest2 =>
          exfalso
          unfold msbCommit msbBuild at hc
          rw [hphi, hsl, hrest] at hc
          cases hc
  rcases hms with ⟨ms, hmseq, hmsnum⟩
  have hplace : msbPlace regs b.num ms = Except.ok regs2 := by
    unfold msbCommit at hc
    rw [hmseq] at hc
    exact hc
  unfold msbPlace at hplace
  clear hc
  by_cases hl : regs.length = b.num
  · rw [if_pos hl] at hplace
    cases hplace
    refine ⟨?_, ms, hmsnum, Or.inl ⟨hl, rfl⟩⟩
    intro i h s hs
    by_cases hi : i < regs.length
    · have hget : (regs ++ [ms]).get ⟨i, h⟩ = regs.get ⟨i, hi⟩ := by
        rw [List.get_eq_getElem, List.get_eq_getElem]
        exact List.getElem_append_left hi
      rw [hget] at hs
      exact hd i hi s hs
    · have hlen : i < regs.length + 1 := by
        simpa using h
      have hieq : i = regs.length := by omega
      subst hieq
      have hget : (regs ++ [ms]).get ⟨regs.length, h⟩ = ms := by
        rw [List.get_eq_getElem]
        simp
      rw [hget] at hs
      rw [hmsnum s hs, hl]
  · rw [if_neg hl] at hplace
    by_cases hl2 : regs.length = b.num + 1
    · rw [if_pos hl2] at hplace
      cases hplace
      refine ⟨?_, ms, hmsnum, Or.inr ⟨hl2, rfl⟩⟩
      intro i h s hs
      have hilen : i < regs.length := by simpa using h
      have hget : (regs.set b.num ms).get ⟨i, h⟩ =
          if b.num = i then ms else regs.get ⟨i, hilen⟩ := by
        simp [List.get_eq_getElem, List.getElem_set]
      by_cases hbi : b.num = i
      · rw [hget, if_pos hbi] at hs
        rw [hmsnum s hs, hbi]
      · rw [hget, if_neg hbi] at hs
        exact hd i hilen s hs
    · rw [if_neg hl2] at hplace
      cases hplace

/-- C7: per-block slot numbering is dense — if every multislot at index
`i` of a block's `regs` holds only slots numbered `i`, then after
`MultiSlotBuilder::add_possible_value` (which pushes a
`ValueSlot { num, .. }` and commits, appending at index `num` or
replacing the entry at index `num`) the same holds, the new entry sits
at index `num`, and `MultiSlot::num` agrees with the index wherever
defined. -/
theorem add_possible_value_preserves_dense (regs : List MultiSlotM)
    (b : MultiSlotBuilderM) (v : Nat)
    (regs2 : List MultiSlotM) (b2 : MultiSlotBuilderM) (slot : ValueSlotM)
    (hd : regsDense regs) (hb : builderOk b)
    (hc : msbAddPossibleValue regs b v =
      Except.ok (regs2, b2, slot)) :
    regsDense regs2 ∧ builderOk b2 ∧ slot.num = b.num ∧
    (∀ i, ∀ h : i < regs2.length,
      ∀ n, (regs2.get ⟨i, h⟩).numOpt = some n → n = i) ∧
    (∃ ms, (regs.length = b.num ∧ regs2 = regs ++ [ms]) ∨
      (regs.length = b.num + 1 ∧ regs2 = regs.set b.num ms)) := by
  unfold msbAddPossibleValue at hc
  by_cases h1 : ¬ (b.num ≤ regs.length)
  · rw [if_pos h1] at hc; cases hc
  rw [if_neg h1] at hc
  by_cases h2 : ¬ (regs.length ≤ b.num + 1)
  · rw [if_pos h2] at hc; cases hc
  rw [if_neg h2] at hc
  by_cases h3 : b.slots.any (fun s => s.firm == v)
  · rw [if_pos h3] at hc; cases hc
  rw [if_neg h3] at hc
  have hb2ok : builderOk { b with slots := b.slots ++ [⟨b.num, v⟩] } := by
    intro s hs
    simp only [List.mem_append, List.mem_singleton] at hs
    cases hs with
    | inl hmem => exact hb s hmem
    | inr heq => rw [heq]
  cases hcm : msbCommit regs { b with slots := b.slots ++ [⟨b.num, v⟩] } with
  | error e =>
    rw [hcm] at hc
    cases hc
  | ok regsc =>
    rw [hcm] at hc
    simp only [Except.ok.injEq, Prod.mk.injEq] at hc
    obtain ⟨hA, hB, hC⟩ := hc
    subst hA
    subst hB
    subst hC
    have hpres := msbCommit_preserves_dense regs
      { b with slots := b.slots ++ [⟨b.num, v⟩] } regsc hd hb2ok hcm
    rcases hpres with ⟨hdense, ms, _, hshape⟩
    refine ⟨hdense, hb2ok, rfl, regsDense_numOpt regsc hdense, ms, ?_⟩
    cases hshape with
    | inl hap => exact Or.inl ⟨hap.1, hap.2⟩
    | inr hst => exact Or.inr ⟨hst.1, hst.2⟩

/-! ## Edge transitions, copy-in/copy-out and the lost-copy assertion
(compiler-lib/src/lowering/lir.rs `construct_flows`, `new_slot`,
`add_incoming_value_flow`, `must_copy_in_source`,
`must_copy_in_target`; compiler-lib/src/lowering/gen_instr.rs
`GenInstrBlock::gen`)

Blocks and Firm value nodes are integer ids.  The block CFG (the
skeleton built by `build_skeleton`) is fixed; the mutable lowering
state consists of each block's `regs` (here: `Single` slots, the
demonstration graph contains no phi — the phi path of `new_slot` is
modelled as an explicit error so it cannot be taken silently) and each
edge's `register_transitions`.  Recursion is bounded by explicit fuel;
every result below is a concrete evaluation, so fuel exhaustion would
surface as an error. -/

/-- A control-flow edge of the block skeleton (source and target block
ids). -/
structure FlowEdge where
  src : Nat
  tgt : Nat
  deriving DecidableEq, Repr

/-- The inputs of `construct_flows`: the firm block CFG and, per value
node, its defining block, whether it is a Const/Address node, and
whether it is a Phi. -/
structure FirmGraphModel where
  nblocks : Nat
  edges : List FlowEdge
  defBlock : Nat → Nat
  isConstOrAddress : Nat → Bool
  isPhi : Nat → Bool

/-- One entry of `ControlFlowTransfer::register_transitions`: the
source multislot's number, the target value slot's number, and the
target slot's firm node (used for the duplicate check in
`add_incoming_value_flow`). -/
structure TransM where
  srcNum : Nat
  tgtNum : Nat
  firm : Nat
  deriving DecidableEq, Repr

/-- The mutable lowering state: per block the `regs` slots
(number/firm pairs), per edge (parallel to `edges`) the register
transitions. -/
structure FlowState where
  regs : List (List ValueSlotM)
  trans : List (List TransM)
  deriving DecidableEq, Repr

/-- The indices of the edges entering block `b` (`BasicBlock::preds`),
in skeleton order. -/
def predIdxs (g : FirmGraphModel) (b : Nat) : List Nat :=
  (List.range g.edges.length).filter
    (fun e => (g.edges.getD e ⟨0, 0⟩).tgt == b)

/-- The indices of the edges leaving block `b` (`BasicBlock::succs`). -/
def succIdxs (g : FirmGraphModel) (b : Nat) : List Nat :=
  (List.range g.edges.length).filter
    (fun e => (g.edges.getD e ⟨0, 0⟩).src == b)

/-- The three mutually recursive operations of the flow construction:
`new_slot(block, value)`, the loop over a block's incoming edges, and
`add_incoming_value_flow(edge, target slot)`. -/
inductive FlowCall where
  | slot (b v : Nat)
  | flowList (es : List Nat) (tgtNum v : Nat)
  | flow (e tgtNum v : Nat)

/-- One step of the flow construction, fuelled.  `slot b v` is
`MutRc<BasicBlock>::new_slot`: reuse an existing slot for `v` in `b`,
otherwise allocate the next slot number and, unless the value is a
Const/Address node or originates in `b`, request the value over every
incoming edge.  `flow e tgtNum v` is
`ControlFlowTransfer::add_incoming_value_flow`: skip if the edge
already transfers `v` (asserting the slot numbers agree), otherwise
create a forwarding slot in the source block (a recursive `new_slot`)
and push the transition.  Returns the new state and, for `slot`, the
slot number. -/
def flowStep (g : FirmGraphModel) :
    Nat → FlowState → FlowCall → Except String (FlowState × Nat)
  | 0, _, _ => Except.error "out of fuel"
  | fuel + 1, st, FlowCall.slot b v =>
    match (st.regs.getD b []).find? (fun s => s.firm == v) with
    | some s => Except.ok (st, s.num)
    | none =>
      if g.isPhi v && (g.defBlock v == b) then
        Except.error "phi multislot path (not taken: graph has no phi)"
      else
        let num := (st.regs.getD b []).length
        let st1 : FlowState :=
          ⟨st.regs.set b ((st.regs.getD b []) ++ [⟨num, v⟩]), st.trans⟩
        if g.isConstOrAddress v || (g.defBlock v == b) then
          Except.ok (st1, num)
        else
          match flowStep g fuel st1 (FlowCall.flowList (predIdxs g b) num v)
            with
          | Except.ok (st2, _) => Except.ok (st2, num)
          | Except.error e => Except.error e
  | _ + 1, st, FlowCall.flowList [] _ _ => Except.ok (st, 0)
  | fuel + 1, st, FlowCall.flowList (e :: rest) tgtNum v =>
    match flowStep g fuel st (FlowCall.flow e tgtNum v) with
    | Except.ok (st2, _) =>
      flowStep g fuel st2 (FlowCall.flowList rest tgtNum v)
    | Except.error err => Except.error err
  | fuel + 1, st, FlowCall.flow e tgtNum v =>
    match (st.trans.getD e []).find? (fun t => t.firm == v) with
    | some t =>
      if t.tgtNum == tgtNum then Except.ok (st, 0)
      else Except.error "assert_eq failed: transition slot numbers differ"
    | none =>
      match flowStep g fuel st
        (FlowCall.slot (g.edges.getD e ⟨0, 0⟩).src v) with
      | Except.ok (st2, srcNum) =>
        Except.ok
          (⟨st2.regs,
            st2.trans.set e ((st2.trans.getD e []) ++ [⟨srcNum, tgtNum, v⟩])⟩,
           0)
      | Except.error err => Except.error err

/-- `BlockGraph::construct_flows`: for every block (in firm walk
order) and every foreign value consumed there, allocate a terminating
slot via `new_slot`.  `uses` lists the `(block, value)` pairs in walk
order. -/
def construct_flows (fuel : Nat) (g : FirmGraphModel)
    (uses : List (Nat × Nat)) : Except String FlowState :=
  match uses with
  | [] => Except.ok
    { regs := List.replicate g.nblocks [],
      trans := List.replicate g.edges.length [] }
  | _ =>
    (uses.foldlM
      (fun st bv =>
        match flowStep g fuel st (FlowCall.slot bv.1 bv.2) with
        | Except.ok (st2, _) => Except.ok st2
        | Except.error e => Except.error e)
      { regs := List.replicate g.nblocks [],
        trans := List.replicate g.edges.length [] })

/-- `ControlFlowTransfer::must_copy_in_source` (lir.rs lines 696-713):
does another edge into the same target block carry a transition with
the same target slot number? -/
def must_copy_in_source (g : FirmGraphModel) (st : FlowState)
    (e idx : Nat) : Bool :=
  let tnum := ((st.trans.getD e []).getD idx ⟨0, 0, 0⟩).tgtNum
  (predIdxs g (g.edges.getD e ⟨0, 0⟩).tgt).any
    (fun p => p ≠ e &&
      (st.trans.getD p []).any (fun t => t.tgtNum == tnum))

/-- `ControlFlowTransfer::must_copy_in_target` (lir.rs lines 715-735):
does another edge out of the same source block carry a transition with
the same source slot number? -/
def must_copy_in_target (g : FirmGraphModel) (st : FlowState)
    (e idx : Nat) : Bool :=
  let snum := ((st.trans.getD e []).getD idx ⟨0, 0, 0⟩).srcNum
  (succIdxs g (g.edges.getD e ⟨0, 0⟩).src).any
    (fun s => s ≠ e &&
      (st.trans.getD s []).any (fun t => t.srcNum == snum))

/-- The copy placement loop of `GenInstrBlock::gen` (gen_instr.rs lines
53-104) for one block: for every slot number and every incoming
transition targeting it, the assertion
`!must_copy_in_source || !must_copy_in_target` is checked
("possible lost-copy detected" on failure, modelled as a pre-check over
exactly the transitions the loop visits); the surviving incoming
transitions with `must_copy_in_source == false` become `copy_in`, and
the outgoing transitions with `must_copy_in_source == true` become
`copy_out`. -/
def genBlockCopies (g : FirmGraphModel) (st : FlowState) (b : Nat) :
    Except String (List TransM × List TransM) :=
  if (List.range (st.regs.getD b []).length).any (fun num =>
       (predIdxs g b).any (fun e =>
         (List.range (st.trans.getD e []).length).any (fun idx =>
           ((st.trans.getD e []).getD idx ⟨0, 0, 0⟩).tgtNum == num &&
           (must_copy_in_source g st e idx &&
            must_copy_in_target g st e idx))))
  then Except.error "possible lost-copy detected"
  else Except.ok
    ((List.range (st.regs.getD b []).length).flatMap (fun num =>
      (predIdxs g b).flatMap (fun e =>
        (List.range (st.trans.getD e []).length).filterMap (fun idx =>
          let t := (st.trans.getD e []).getD idx ⟨0, 0, 0⟩
          if t.tgtNum == num && !(must_copy_in_source g st e idx) then
            some t
          else none))),
     (List.range (st.regs.getD b []).length).flatMap (fun num =>
      (succIdxs g b).flatMap (fun e =>
        (List.range (st.trans.getD e []).length).filterMap (fun idx =>
          let t := (st.trans.getD e []).getD idx ⟨0, 0, 0⟩
          if t.srcNum == num && must_copy_in_source g st e idx then
            some t
          else none))))

/-- The demonstration CFG: block 0 dominates everything, block 1 ends
in a conditional jump to blocks 2 and 3, block 2 jumps to block 3,
block 3 returns (block 4 is the end block).  The edge `1 → 3` is a
critical edge; such shapes arise from short-circuit boolean lowering
and from `if` statements with one empty branch.  Value node 100 is
defined in block 0 and consumed in blocks 3 and 2. -/
def lostCopyGraph : FirmGraphModel :=
  { nblocks := 5,
    edges := [⟨0, 1⟩, ⟨1, 2⟩, ⟨1, 3⟩, ⟨2, 3⟩, ⟨3, 4⟩],
    defBlock := fun _ => 0,
    isConstOrAddress := fun _ => false,
    isPhi := fun _ => false }

/-- The walk-order `(block, value)` consumption list of the
demonstration graph: the value is used in block 3 and in block 2. -/
def lostCopyUses : List (Nat × Nat) := [(3, 100), (2, 100)]

/-- C2: the no-lost-copy assertion CAN fire on lowering-produced LIR.
Running the flow construction on the demonstration graph succeeds and
yields a transition on the critical edge `1 → 3` (edge index 2, flow
index 0) with `must_copy_in_source` AND `must_copy_in_target` both
true, so the assertion in `GenInstrBlock::gen` fails with
"possible lost-copy detected" when emitting block 3. -/
theorem lost_copy_assertion_fires :
    Except.bind (construct_flows 40 lostCopyGraph lostCopyUses)
      (fun st => Except.ok
        (must_copy_in_source lostCopyGraph st 2 0,
         must_copy_in_target lostCopyGraph st 2 0)) =
      Except.ok (true, true) ∧
    Except.bind (construct_flows 40 lostCopyGraph lostCopyUses)
      (fun st => genBlockCopies lostCopyGraph st 3) =
      Except.error "possible lost-copy detected" := by
  exact ⟨rfl, rfl⟩

/-- C7 witness: one concrete `add_possible_value` on a one-entry
`regs` list. -/
theorem add_possible_value_preserves_dense_witness :
    regsDense [MultiSlotM.Single ⟨0, 7⟩, MultiSlotM.Single ⟨1, 9⟩] ∧
    builderOk ⟨1, [⟨1, 9⟩], none⟩ ∧
    (⟨1, 9⟩ : ValueSlotM).num = 1 ∧
    (∀ i, ∀ h : i <
        [MultiSlotM.Single ⟨0, 7⟩, MultiSlotM.Single ⟨1, 9⟩].length,
      ∀ n, (([MultiSlotM.Single ⟨0, 7⟩,
        MultiSlotM.Single ⟨1, 9⟩].get ⟨i, h⟩)).numOpt = some n → n = i) ∧
    (∃ ms, ([MultiSlotM.Single ⟨0, 7⟩] : List MultiSlotM).length = 1 ∧
        [MultiSlotM.Single ⟨0, 7⟩, MultiSlotM.Single ⟨1, 9⟩] =
          [MultiSlotM.Single ⟨0, 7⟩] ++ [ms] ∨
      ([MultiSlotM.Single ⟨0, 7⟩] : List MultiSlotM).length = 1 + 1 ∧
        [MultiSlotM.Single ⟨0, 7⟩, MultiSlotM.Single ⟨1, 9⟩] =
          ([MultiSlotM.Single ⟨0, 7⟩] : List MultiSlotM).set 1 ms) :=
  add_possible_value_preserves_dense
    [MultiSlotM.Single ⟨0, 7⟩] ⟨1, [], none⟩ 9
    [MultiSlotM.Single ⟨0, 7⟩, MultiSlotM.Single ⟨1, 9⟩]
    ⟨1, [⟨1, 9⟩], none⟩ ⟨1, 9⟩
    (by
      intro i h s hs
      have hi : i = 0 := by
        have := h
        simp only [List.length_singleton] at this
        omega
      subst hi
      simp only [List.get_eq_getElem, List.getElem_singleton,
        MultiSlotM.slotList, List.mem_singleton] at hs
      rw [hs])
    (by intro s hs; cases hs)
    rfl

end Comprakt
